import Mathlib

/-!
Shallow embedding of the hybrid retrieval-and-fusion engine of
`src/grokalternative/rag.py` (function `hybrid_answer` and its helper `_cos`)
together with the deterministic hash-based fallback embedder of
`src/grokalternative/embeddings.py` (`Embedder.embed`).

Python floats are modelled as rationals (ℚ).  The two genuinely external
numeric capabilities are abstracted as function parameters:

* `digest : String → List ℕ` models `hashlib.sha256(text.encode()).digest()`,
  a 32-byte digest (each byte `< 256`);
* `fsqrt : ℚ → ℚ` models `math.sqrt` on non-negative inputs; the only
  properties ever assumed about it are ones `math.sqrt` satisfies
  (non-negative outputs on non-negative inputs, `sqrt 0 = 0`).

Graph store and vector store calls are modelled as functions returning
`Except Unit _`, where `Except.error` models the call raising an exception
(which `hybrid_answer` catches and converts to an empty result list).
Dynamic `dict` records are modelled as structures with `Option` fields,
and Python truthiness-based `or` defaults are modelled explicitly.
-/

namespace GrokAlt

/-- Python `a or b` on two optional strings: `a` wins iff it is truthy,
i.e. present and non-empty. -/
def pyOrS (a b : Option String) : Option String :=
  match a with
  | some s => if s = "" then b else some s
  | none => b

/-- Python `x or 1.0` on a float: `1.0` exactly when `x` is (falsy) zero. -/
def pyOr1 (q : ℚ) : ℚ := if q = 0 then 1 else q

/-- Payload of a vector-store hit; `rag.py` reads keys `id` and `entity_id`. -/
structure Payload where
  id : Option String
  entity_id : Option String
deriving DecidableEq, Repr, Inhabited

/-- A vector-store hit: raw similarity `score` and a `payload`. -/
structure Hit where
  score : Option ℚ
  payload : Option Payload
deriving DecidableEq, Repr, Inhabited

/-- Graph metadata of a relation; `rag.py` reads keys `rank`, `pred_code`
and `object_label`. -/
structure Meta where
  rank : Option String
  pred_code : Option String
  object_label : Option String
deriving DecidableEq, Repr, Inhabited

/-- A row returned by `kg.neighbors`: keys `s`, `p`, `o`, `meta`. -/
structure Nbr where
  s : Option String
  p : Option String
  o : Option String
  meta : Option Meta
deriving DecidableEq, Repr, Inhabited

/-- A web document as supplied in `web_docs`. -/
structure Doc where
  url : Option String
  title : Option String
  summary : Option String
  text : Option String
  engine : Option String
deriving DecidableEq, Repr, Inhabited

/-- A source record projected from a `Doc` in `hybrid_answer`. -/
structure Source where
  url : Option String
  title : Option String
  engine : Option String
deriving DecidableEq, Repr, Inhabited

/-- A fact record as built by `hybrid_answer` (`rec` in the source). -/
structure Fact where
  subject : Option String
  predicate : Option String
  object : Option String
  meta : Option Meta
  score : ℚ
  citations : List ℕ
deriving DecidableEq, Repr, Inhabited

/-- The dictionary returned by `hybrid_answer`. -/
structure HybridResult where
  answer : String
  facts : List Fact
  vector_hits : List Hit
  selected_entities : List String
  sources : List Source
  confidence : String
deriving DecidableEq, Repr, Inhabited

/-! ### Numeric helpers: sums, norms, cosine, rounding -/

/-- `sum(x * y for x, y in zip(a, b))`. -/
def dotQ (a b : List ℚ) : ℚ := ((a.zip b).map (fun p => p.1 * p.2)).sum

/-- `sum(x * x for x in a)`. -/
def sumSq (a : List ℚ) : ℚ := (a.map (fun x => x * x)).sum

/-- `math.sqrt(sum(x*x for x in a)) or 1.0` — the denominator factor used in
`_cos` and the normalizer used in `Embedder.embed`. -/
def pyNorm (fsqrt : ℚ → ℚ) (a : List ℚ) : ℚ := pyOr1 (fsqrt (sumSq a))

/-- `_cos(a, b)` from `rag.py`: `sum(x*y) / (da * db)` with
`da = sqrt(Σx²) or 1.0` and `db = sqrt(Σy²) or 1.0`. -/
def cosQ (fsqrt : ℚ → ℚ) (a b : List ℚ) : ℚ :=
  dotQ a b / (pyNorm fsqrt a * pyNorm fsqrt b)

/-- The cosine as worded by the spec for claim C8: each of the two L2 norms
"floored at 1.0 (i.e. replaced by max(norm, 1.0))".  This is the spec's
version, kept separate so it can be compared with `cosQ`, the translation of
the code's `_cos` (which replaces a norm by 1.0 only when it is zero). -/
def cosSpecMaxFloor (fsqrt : ℚ → ℚ) (a b : List ℚ) : ℚ :=
  dotQ a b / (max (fsqrt (sumSq a)) 1 * max (fsqrt (sumSq b)) 1)

/-- Floor of a rational, computed by flooring division of the numerator by
the denominator (agrees with `Int.floor`, see `qfloor_eq_floor`). -/
def qfloor (q : ℚ) : ℤ := q.num.fdiv q.den

/-- Round a rational to the nearest integer, ties to even — the model of
Python's banker's rounding. -/
def roundHalfEven (q : ℚ) : ℤ :=
  let f := qfloor q
  let r := q - f
  if r < 1/2 then f
  else if 1/2 < r then f + 1
  else if f % 2 = 0 then f else f + 1

/-- `round(q, 4)` — round to 4 decimal places, ties to even. -/
def roundQ4 (q : ℚ) : ℚ := (roundHalfEven (q * 10000) : ℚ) / 10000

/-! ### The embedder (`Embedder.embed`, hash fallback branch) -/

/-- `Embedder.embed` for an embedder without a sentence-transformers model:
digest bytes are tiled up to `dim` entries, divided by 255, then
L2-normalized (with zero norm replaced by 1). -/
def embed (digest : String → List ℕ) (fsqrt : ℚ → ℚ) (dim : ℕ) (text : String) :
    List ℚ :=
  let h := digest text
  let values := (List.replicate (dim / h.length + 1) h).flatten
  let arr := (values.take dim).map (fun v : ℕ => (v : ℚ) / 255)
  let norm := pyNorm fsqrt arr
  arr.map (fun x => x / norm)

/-! ### Vector side of `hybrid_answer` -/

/-- The vector-store search wrapped in `try/except`: an exception yields
an empty hit list. -/
def vectorHits (digest : String → List ℕ) (fsqrt : ℚ → ℚ)
    (vs : String → List ℚ → ℕ → Except Unit (List Hit))
    (question : String) (top_k : ℕ) : List Hit :=
  match vs "entities" (embed digest fsqrt 256 question) top_k with
  | .ok l => l
  | .error _ => []

/-- `payload.get("id") or payload.get("entity_id")` for a hit whose payload
defaults to `{}`; the source keeps the result when it is a string. -/
def candOf (h : Hit) : Option String :=
  let p := h.payload.getD default
  pyOrS p.id p.entity_id

/-- The candidate entity ids: payload ids of the hits, falling back to the
raw question when there are none. -/
def candidateIds (hits : List Hit) (question : String) : List String :=
  let ids := hits.filterMap candOf
  if ids = [] then [question] else ids

/-- `h.get("score") or 0.0`. -/
def hitScore (h : Hit) : ℚ := h.score.getD 0

/-- `(h.get("payload") or {}).get("id") or ""` (as the `str` key of the
`id_to_score` dict). -/
def hitKey (h : Hit) : String := ((h.payload.getD default).id).getD ""

/-- Python `max` over a non-empty list (0 on the empty list, a case the
source never reaches because it is guarded by `if vector_hits:`). -/
def maxD : List ℚ → ℚ
  | [] => 0
  | x :: xs => xs.foldl max x

/-- `best = max((h.get("score") or 0.0) for h in vector_hits) or 1.0`. -/
def bestOf (hits : List Hit) : ℚ := pyOr1 (maxD (hits.map hitScore))

/-- `id_to_score.get(key, 0.0)`: the dict maps each hit's key to its raw
score divided by `best`, later hits overwriting earlier ones; keys absent
from the map (in particular when there are no hits) score 0. -/
def idScore (hits : List Hit) (key : String) : ℚ :=
  match hits.reverse.find? (fun h => decide (hitKey h = key)) with
  | some h => hitScore h / bestOf hits
  | none => 0

/-! ### Graph side: fact expansion and scoring -/

/-- `kg.neighbors(node_id, limit=10)` wrapped in `try/except`. -/
def neighborsOf (kg : String → ℕ → Except Unit (List Nbr)) (nid : String) :
    List Nbr :=
  match kg nid 10 with
  | .ok l => l
  | .error _ => []

/-- The rank/type bonuses: `+0.1` when `meta.get("rank") or "" == "preferred"`,
`+0.05` when `meta.get("pred_code") or ""` is `"P31"` or `"P279"`. -/
def bonus (meta : Option Meta) : ℚ :=
  let m := meta.getD default
  (if m.rank.getD "" = "preferred" then (1 : ℚ)/10 else 0) +
  (if m.pred_code.getD "" = "P31" ∨ m.pred_code.getD "" = "P279"
    then (1 : ℚ)/20 else 0)

/-- One fact record built from a neighbor row, given the candidate's
normalized vector score `base`. -/
def mkFact (base : ℚ) (n : Nbr) : Fact :=
  { subject := n.s, predicate := n.p, object := n.o, meta := n.meta,
    score := roundQ4 (base + bonus n.meta), citations := [] }

/-- All facts contributed by candidate `nid`. -/
def factsFor (kg : String → ℕ → Except Unit (List Nbr)) (hits : List Hit)
    (nid : String) : List Fact :=
  (neighborsOf kg nid).map (mkFact (idScore hits nid))

/-- The raw fact list, in encounter order: the first 3 candidates expanded
in order. -/
def expandedFacts (kg : String → ℕ → Except Unit (List Nbr)) (hits : List Hit)
    (cands : List String) : List Fact :=
  (cands.take 3).flatMap (factsFor kg hits)

/-- Insert a fact into a list sorted by descending score, before the first
element whose score is not larger — the insertion step of a stable
descending sort. -/
def insertDesc (f : Fact) : List Fact → List Fact
  | [] => [f]
  | g :: gs => if f.score < g.score then g :: insertDesc f gs else f :: g :: gs

/-- `sorted(facts, key=lambda x: x.get("score", 0.0), reverse=True)` —
a stable sort by descending score. -/
def sortFactsDesc : List Fact → List Fact
  | [] => []
  | f :: fs => insertDesc f (sortFactsDesc fs)

/-! ### Sources, documents, confidence -/

/-- One source record projected from a document:
`{"url": d.url, "title": d.title or d.url, "engine": d.engine}`. -/
def mkSource (d : Doc) : Source :=
  { url := d.url, title := pyOrS d.title d.url, engine := d.engine }

/-- The first 10 supplied documents (`web_docs[:10]`), empty when
`web_docs` is `None`. -/
def docsOf (wd : Option (List Doc)) : List Doc := (wd.getD []).take 10

/-- The sources list: the projection of the first 10 documents. -/
def sourcesOf (wd : Option (List Doc)) : List Source := (docsOf wd).map mkSource

/-- Confidence from the number of sources: `high` at ≥ 3, `medium` at
exactly 2, `low` otherwise. -/
def confOf (ns : ℕ) : String :=
  if 3 ≤ ns then "high" else if ns = 2 then "medium" else "low"

/-! ### Citation attribution -/

/-- `" ".join(str(d.get(k) or "") for k in ("title", "summary", "text"))`. -/
def docText (d : Doc) : String :=
  String.intercalate " " [d.title.getD "", d.summary.getD "", d.text.getD ""]

/-- Keep an optional string only when it is truthy (present and non-empty);
this is the `isinstance(x, str) and x` filter of the claim string. -/
def truthyStr : Option String → Option String
  | some s => if s = "" then none else some s
  | none => none

/-- The synthetic claim string of a fact:
`" | ".join(str(x) for x in [s, p, o, object_label] if isinstance(x, str) and x)`. -/
def claimStr (f : Fact) : String :=
  String.intercalate " | "
    (([f.subject, f.predicate, f.object,
       (f.meta.getD default).object_label]).filterMap truthyStr)

/-- The document vectors, each document's text embedded once. -/
def docVecs (digest : String → List ℕ) (fsqrt : ℚ → ℚ) (docs : List Doc) :
    List (List ℚ) :=
  docs.map (fun d => embed digest fsqrt 256 (docText d))

/-- The argmax loop of the attributor: running best index/score over the
scores, starting from `best_idx = None`, `best_sc = -1.0`, updating on a
strictly greater score. -/
def bestIdxGo (best : Option ℕ) (bestSc : ℚ) (idx : ℕ) : List ℚ → Option ℕ
  | [] => best
  | sc :: rest =>
    if bestSc < sc then bestIdxGo (some idx) sc (idx + 1) rest
    else bestIdxGo best bestSc (idx + 1) rest

/-- Index of the best document for one claim vector. -/
def bestIdx (scores : List ℚ) : Option ℕ := bestIdxGo none (-1) 0 scores

/-- Index of the first occurrence of `m` in a list (length of the list when
`m` does not occur) — used to state which document the attributor cites. -/
def firstIdxOf (m : ℚ) : List ℚ → ℕ
  | [] => 0
  | x :: xs => if x = m then 0 else firstIdxOf m xs + 1

/-- A fact with its citations field cleared — used to state that sorting and
citation attribution touch nothing but the citations. -/
def stripCit (f : Fact) : Fact := { f with citations := [] }

/-- Attribute one fact: embed its claim string, pick the document with the
highest cosine similarity (first one on ties), cite it 1-based; when the
loop never improved on the `-1.0` sentinel, cite source #1 if any source
exists, else leave the fact unchanged. -/
def citeFact (digest : String → List ℕ) (fsqrt : ℚ → ℚ)
    (dvecs : List (List ℚ)) (nsources : ℕ) (f : Fact) : Fact :=
  match bestIdx (dvecs.map (fun dv =>
      cosQ fsqrt (embed digest fsqrt 256 (claimStr f)) dv)) with
  | some i => { f with citations := [i + 1] }
  | none => if nsources ≠ 0 then { f with citations := [1] } else f

/-- The citation pass: runs only when sources, facts and docs are all
non-empty (`if sources and facts_sorted and docs:`). -/
def citePass (digest : String → List ℕ) (fsqrt : ℚ → ℚ)
    (sources : List Source) (docs : List Doc) (facts : List Fact) :
    List Fact :=
  if sources ≠ [] ∧ facts ≠ [] ∧ docs ≠ [] then
    facts.map (citeFact digest fsqrt (docVecs digest fsqrt docs) sources.length)
  else facts

/-! ### Answer composition -/

/-- The style-aware summary string with footnote markers. -/
def answerText (tone audience : String) (timeframe length : ℤ)
    (nsources nfacts nhits : ℕ) : String :=
  let lead := if tone = "executive" then "Executive summary"
    else if tone = "humorous" then "Quick take (with a wink)" else "Summary"
  let aud := if audience = "general" then "for a general audience"
    else if audience = "non-technical" then "for non-technical readers"
    else "for experts"
  let tf := if timeframe = 0 then "all time"
    else "last " ++ toString timeframe ++ " days"
  let fn := if nsources = 0 then ""
    else " " ++ String.join (((List.range (min 3 nsources)).map (fun j =>
      "[" ++ toString (j + 1) ++ "]")))
  let extra := if length < 400 then ""
    else " Additional detail included per requested length."
  lead ++ " " ++ aud ++ " (" ++ tf ++ "): " ++ toString nfacts ++
    " graph facts fused with " ++ toString nhits ++ " vector hits." ++
    extra ++ fn

/-! ### The whole pipeline -/

/-- `hybrid_answer` from `rag.py`, as a pure function of the question, the
store behaviours, the supplied web documents and the style parameters. -/
def hybridAnswer (digest : String → List ℕ) (fsqrt : ℚ → ℚ)
    (kg : String → ℕ → Except Unit (List Nbr))
    (vs : String → List ℚ → ℕ → Except Unit (List Hit))
    (question : String) (top_k : ℕ) (wd : Option (List Doc))
    (tone : String) (length : ℤ) (audience : String) (timeframe : ℤ) :
    HybridResult :=
  let vhits := vectorHits digest fsqrt vs question top_k
  let cands := candidateIds vhits question
  let facts_sorted := sortFactsDesc (expandedFacts kg vhits cands)
  let sources := sourcesOf wd
  let docs := docsOf wd
  let confidence := confOf sources.length
  let facts2 := citePass digest fsqrt sources docs facts_sorted
  { answer := answerText tone audience timeframe length sources.length
      facts2.length vhits.length,
    facts := facts2,
    vector_hits := vhits,
    selected_entities := cands,
    sources := sources,
    confidence := confidence }

/-! ### Concrete instantiations used in witnesses and counterexamples -/

/-- A graph store whose every call raises. -/
def errKG : String → ℕ → Except Unit (List Nbr) := fun _ _ => .error ()

/-- A vector store whose every call raises. -/
def errVS : String → List ℚ → ℕ → Except Unit (List Hit) :=
  fun _ _ _ => .error ()

/-- A trivially degenerate digest (used to instantiate witnesses; the
pipeline theorems never assume anything about `digest`). -/
def digest0 : String → List ℕ := fun _ => []

/-- Integer square root by exhaustive search (structurally recursive, so the
kernel can evaluate it on the small concrete inputs of the witnesses). -/
def isqrt (n : ℕ) : ℕ :=
  ((List.range (n + 2)).takeWhile (fun k => decide (k * k ≤ n))).length - 1

/-- An exact rational square root on perfect squares, non-negative
everywhere — a concrete function satisfying every property the theorems
assume of `math.sqrt`. -/
def ratSqrt (q : ℚ) : ℚ := (isqrt q.num.toNat : ℚ) / (isqrt q.den : ℚ)

/-! ### Rounding lemmas -/

theorem qfloor_eq_floor (q : ℚ) : qfloor q = ⌊q⌋ := by
  rw [Rat.floor_def]
  unfold qfloor
  rw [Int.fdiv_eq_ediv _ (by positivity)]

theorem roundHalfEven_nonneg {q : ℚ} (h : 0 ≤ q) : 0 ≤ roundHalfEven q := by
  have hf : (0 : ℤ) ≤ qfloor q := by
    rw [qfloor_eq_floor]
    exact Int.le_floor.2 (by exact_mod_cast h)
  unfold roundHalfEven
  dsimp only
  split
  · exact hf
  · split
    · omega
    · split <;> omega

theorem roundHalfEven_add_int_even (q : ℚ) (k : ℤ) (hk : k % 2 = 0) :
    roundHalfEven (q + k) = roundHalfEven q + k := by
  have hfl : qfloor (q + k) = qfloor q + k := by
    rw [qfloor_eq_floor, qfloor_eq_floor]
    exact_mod_cast Int.floor_add_int q k
  unfold roundHalfEven
  dsimp only
  rw [hfl]
  have hr : q + (k : ℚ) - ((qfloor q + k : ℤ) : ℚ) = q - (qfloor q : ℚ) := by
    push_cast
    ring
  rw [hr]
  have hpar : (qfloor q + k) % 2 = 0 ↔ qfloor q % 2 = 0 := by omega
  split
  · rfl
  · split
    · omega
    · by_cases hq2 : qfloor q % 2 = 0
      · rw [if_pos hq2, if_pos (hpar.2 hq2)]
      · rw [if_neg hq2, if_neg (fun h => hq2 (hpar.1 h))]
        omega

theorem roundQ4_nonneg {q : ℚ} (h : 0 ≤ q) : 0 ≤ roundQ4 q := by
  unfold roundQ4
  have : (0 : ℤ) ≤ roundHalfEven (q * 10000) :=
    roundHalfEven_nonneg (by positivity)
  positivity

theorem roundQ4_add_grid (q : ℚ) (k : ℤ) (hk : k % 2 = 0) :
    roundQ4 (q + (k : ℚ) / 10000) = roundQ4 q + (k : ℚ) / 10000 := by
  unfold roundQ4
  have h1 : (q + (k : ℚ) / 10000) * 10000 = q * 10000 + (k : ℚ) := by
    field_simp
  rw [h1, roundHalfEven_add_int_even _ _ hk]
  push_cast
  ring

/-! ### Bonus lemmas -/

theorem bonus_spec (m : Option Meta) :
    ∃ k : ℤ, k % 2 = 0 ∧ 0 ≤ k ∧ bonus m = (k : ℚ) / 10000 ∧ bonus m ≤ 3/20 := by
  unfold bonus
  dsimp only
  split
  · split
    · exact ⟨1500, by norm_num⟩
    · exact ⟨1000, by norm_num⟩
  · split
    · exact ⟨500, by norm_num⟩
    · exact ⟨0, by norm_num⟩

theorem mkFact_score (base : ℚ) (n : Nbr) :
    (mkFact base n).score = roundQ4 base + bonus n.meta ∧
    (mkFact base n).score ≤ roundQ4 base + 3/20 ∧
    (0 ≤ base → 0 ≤ (mkFact base n).score) := by
  obtain ⟨k, hk2, hk0, hbk, hb15⟩ := bonus_spec n.meta
  have hs : (mkFact base n).score = roundQ4 base + bonus n.meta := by
    show roundQ4 (base + bonus n.meta) = _
    rw [hbk, roundQ4_add_grid base k hk2]
  refine ⟨hs, ?_, ?_⟩
  · rw [hs]
    linarith
  · intro hb
    rw [hs, hbk]
    have h1 : 0 ≤ roundQ4 base := roundQ4_nonneg hb
    have h2 : 0 ≤ (k : ℚ) / 10000 := by positivity
    linarith

/-! ### Max and normalized-score lemmas -/

theorem le_foldl_max (l : List ℚ) : ∀ a : ℚ, a ≤ l.foldl max a := by
  induction l with
  | nil => intro a; simp
  | cons x xs ih =>
    intro a
    simpa using le_trans (le_max_left a x) (ih (max a x))

theorem mem_le_foldl_max (l : List ℚ) :
    ∀ a x : ℚ, x ∈ l → x ≤ l.foldl max a := by
  induction l with
  | nil => intro a x hx; simp at hx
  | cons y ys ih =>
    intro a x hx
    rcases List.mem_cons.1 hx with h | h
    · subst h
      simpa using le_trans (le_max_right a x) (le_foldl_max ys (max a x))
    · simpa using ih (max a y) x h

theorem foldl_max_cases (l : List ℚ) :
    ∀ a : ℚ, l.foldl max a = a ∨ l.foldl max a ∈ l := by
  induction l with
  | nil => intro a; left; rfl
  | cons x xs ih =>
    intro a
    rcases ih (max a x) with h | h
    · rcases max_cases a x with ⟨he, _⟩ | ⟨he, _⟩
      · left; simpa [he] using h
      · right; simp only [List.foldl_cons]
        rw [h, he]
        exact List.mem_cons_self x xs
    · right
      exact List.mem_cons_of_mem x (by simpa using h)

theorem mem_le_maxD {l : List ℚ} {x : ℚ} (hx : x ∈ l) : x ≤ maxD l := by
  cases l with
  | nil => simp at hx
  | cons y ys =>
    rcases List.mem_cons.1 hx with h | h
    · subst h; exact le_foldl_max ys x
    · exact mem_le_foldl_max ys y x h

theorem maxD_mem {l : List ℚ} (hl : l ≠ []) : maxD l ∈ l := by
  cases l with
  | nil => exact absurd rfl hl
  | cons y ys =>
    rcases foldl_max_cases ys y with h | h
    · rw [show maxD (y :: ys) = ys.foldl max y from rfl, h]
      exact List.mem_cons_self y ys
    · exact List.mem_cons_of_mem y h

/-- Under non-negative raw hit scores, every normalized score lies in `[0, 1]`. -/
theorem idScore_mem_unit (hits : List Hit)
    (h : ∀ x ∈ hits, 0 ≤ hitScore x) (key : String) :
    0 ≤ idScore hits key ∧ idScore hits key ≤ 1 := by
  unfold idScore
  cases hfind : hits.reverse.find? (fun h => decide (hitKey h = key)) with
  | none => norm_num
  | some hh =>
    have hmem : hh ∈ hits := by
      have := List.mem_of_find?_eq_some hfind
      exact List.mem_reverse.1 this
    have hs0 : 0 ≤ hitScore hh := h hh hmem
    have hsM : hitScore hh ≤ maxD (hits.map hitScore) :=
      mem_le_maxD (List.mem_map_of_mem hitScore hmem)
    have hM0 : 0 ≤ maxD (hits.map hitScore) := le_trans hs0 hsM
    unfold bestOf pyOr1
    by_cases hz : maxD (hits.map hitScore) = 0
    · rw [if_pos hz]
      constructor
      · simpa using hs0
      · simp only [div_one]
        rw [hz] at hsM
        linarith
    · rw [if_neg hz]
      have hMpos : 0 < maxD (hits.map hitScore) := lt_of_le_of_ne hM0 (Ne.symm hz)
      constructor
      · exact div_nonneg hs0 (le_of_lt hMpos)
      · exact (div_le_one hMpos).2 hsM

/-! ### Stable descending sort lemmas -/

theorem mem_insertDesc {a f : Fact} : ∀ {l : List Fact},
    a ∈ insertDesc f l ↔ a = f ∨ a ∈ l := by
  intro l
  induction l with
  | nil => simp [insertDesc]
  | cons g gs ih =>
    unfold insertDesc
    split
    · simp only [List.mem_cons, ih]
      tauto
    · simp

theorem pairwise_insertDesc {f : Fact} : ∀ {l : List Fact},
    l.Pairwise (fun a b => b.score ≤ a.score) →
    (insertDesc f l).Pairwise (fun a b => b.score ≤ a.score) := by
  intro l
  induction l with
  | nil => intro _; simp [insertDesc]
  | cons g gs ih =>
    intro hp
    rcases List.pairwise_cons.1 hp with ⟨hg, hgs⟩
    unfold insertDesc
    split
    · rename_i hlt
      refine List.pairwise_cons.2 ⟨?_, ih hgs⟩
      intro b hb
      rcases mem_insertDesc.1 hb with rfl | hb
      · exact le_of_lt hlt
      · exact hg b hb
    · rename_i hnlt
      push_neg at hnlt
      refine List.pairwise_cons.2 ⟨?_, hp⟩
      intro b hb
      rcases List.mem_cons.1 hb with rfl | hb
      · exact hnlt
      · exact le_trans (hg b hb) hnlt

theorem mem_sortFactsDesc {a : Fact} : ∀ {l : List Fact},
    a ∈ sortFactsDesc l ↔ a ∈ l := by
  intro l
  induction l with
  | nil => simp [sortFactsDesc]
  | cons f fs ih =>
    unfold sortFactsDesc
    rw [mem_insertDesc]
    simp [ih]

theorem pairwise_sortFactsDesc : ∀ (l : List Fact),
    (sortFactsDesc l).Pairwise (fun a b => b.score ≤ a.score) := by
  intro l
  induction l with
  | nil => simp [sortFactsDesc]
  | cons f fs ih => exact pairwise_insertDesc ih

theorem filter_insertDesc (s : ℚ) (f : Fact) : ∀ (l : List Fact),
    (insertDesc f l).filter (fun g => decide (g.score = s)) =
      if f.score = s then f :: l.filter (fun g => decide (g.score = s))
      else l.filter (fun g => decide (g.score = s)) := by
  intro l
  induction l with
  | nil =>
    by_cases hf : f.score = s <;> simp [insertDesc, hf]
  | cons g gs ih =>
    unfold insertDesc
    split
    · rename_i hlt
      by_cases hg : g.score = s
      · have hf : ¬ f.score = s := by
          intro hfe
          rw [hfe, hg] at hlt
          exact lt_irrefl s hlt
        simp [List.filter_cons, hg, hf, ih]
      · simp [List.filter_cons, hg, ih]
    · by_cases hf : f.score = s <;> by_cases hg : g.score = s <;>
        simp [List.filter_cons, hf, hg]

theorem filter_sortFactsDesc (s : ℚ) : ∀ (l : List Fact),
    (sortFactsDesc l).filter (fun g => decide (g.score = s)) =
      l.filter (fun g => decide (g.score = s)) := by
  intro l
  induction l with
  | nil => rfl
  | cons f fs ih =>
    unfold sortFactsDesc
    rw [filter_insertDesc, ih, List.filter_cons]
    split <;> simp_all

/-! ### Argmax-loop lemmas -/

theorem firstIdxOf_cons (m x : ℚ) (xs : List ℚ) :
    firstIdxOf m (x :: xs) = if x = m then 0 else firstIdxOf m xs + 1 := rfl

theorem bestIdxGo_bound : ∀ (l : List ℚ) (best : Option ℕ) (sc : ℚ) (idx k : ℕ),
    bestIdxGo best sc idx l = some k →
    best = some k ∨ (idx ≤ k ∧ k < idx + l.length) := by
  intro l
  induction l with
  | nil =>
    intro best sc idx k h
    exact Or.inl h
  | cons x xs ih =>
    intro best sc idx k h
    unfold bestIdxGo at h
    rw [List.length_cons]
    split at h
    · rcases ih _ _ _ _ h with h1 | h1
      · right
        have hk : idx = k := by injection h1
        omega
      · right
        omega
    · rcases ih _ _ _ _ h with h1 | h1
      · exact Or.inl h1
      · right
        omega

theorem bestIdx_lt_length {l : List ℚ} {k : ℕ} (h : bestIdx l = some k) :
    k < l.length := by
  rcases bestIdxGo_bound l none (-1) 0 k h with h1 | h1
  · exact absurd h1 (by simp)
  · simpa using h1.2

theorem bestIdxGo_some_eq : ∀ (xs : List ℚ) (b idx : ℕ) (sc : ℚ),
    bestIdxGo (some b) sc idx xs =
      some (if xs.foldl max sc ≤ sc then b
            else idx + firstIdxOf (xs.foldl max sc) xs) := by
  intro xs
  induction xs with
  | nil =>
    intro b idx sc
    simp [bestIdxGo]
  | cons x xs' ih =>
    intro b idx sc
    unfold bestIdxGo
    split
    · rename_i hlt
      rw [ih idx (idx + 1) x]
      have hmax : max sc x = x := max_eq_right (le_of_lt hlt)
      rw [List.foldl_cons, hmax]
      have hxM : x ≤ xs'.foldl max x := le_foldl_max xs' x
      by_cases hc : xs'.foldl max x ≤ x
      · have hMx : xs'.foldl max x = x := le_antisymm hc hxM
        have hns : ¬ xs'.foldl max x ≤ sc := by rw [hMx]; exact not_le.2 hlt
        rw [if_pos hc, if_neg hns, firstIdxOf_cons, if_pos hMx.symm]
        simp
      · have hns : ¬ xs'.foldl max x ≤ sc := by
          push_neg at hc ⊢
          exact lt_trans hlt hc
        rw [if_neg hc, if_neg hns, firstIdxOf_cons]
        have hxne : ¬ x = xs'.foldl max x := by
          push_neg at hc
          exact ne_of_lt hc
        rw [if_neg hxne]
        congr 1
        omega
    · rename_i hnlt
      push_neg at hnlt
      rw [ih b (idx + 1) sc]
      have hmax : max sc x = sc := max_eq_left hnlt
      rw [List.foldl_cons, hmax]
      by_cases hc : xs'.foldl max sc ≤ sc
      · rw [if_pos hc, if_pos hc]
      · rw [if_neg hc, if_neg hc, firstIdxOf_cons]
        have hxne : ¬ x = xs'.foldl max sc := by
          push_neg at hc
          exact ne_of_lt (lt_of_le_of_lt hnlt hc)
        rw [if_neg hxne]
        congr 1
        omega

/-- On a non-empty score list whose head beats the `-1.0` sentinel, the
attributor's loop returns exactly the first index attaining the maximum. -/
theorem bestIdx_eq_firstIdx {x : ℚ} (xs : List ℚ) (hx : -1 < x) :
    bestIdx (x :: xs) = some (firstIdxOf (maxD (x :: xs)) (x :: xs)) := by
  unfold bestIdx bestIdxGo
  rw [if_pos hx]
  rw [bestIdxGo_some_eq xs 0 1 x]
  have hM : maxD (x :: xs) = xs.foldl max x := rfl
  have hxM : x ≤ xs.foldl max x := le_foldl_max xs x
  by_cases hc : xs.foldl max x ≤ x
  · have hMx : xs.foldl max x = x := le_antisymm hc hxM
    rw [if_pos hc, hM, firstIdxOf_cons, if_pos hMx.symm]
  · rw [if_neg hc, hM, firstIdxOf_cons]
    have hxne : ¬ x = xs.foldl max x := by
      push_neg at hc
      exact ne_of_lt hc
    rw [if_neg hxne]
    congr 1
    omega

/-! ### Non-negativity of embeddings and cosines -/

theorem sumSq_nonneg (a : List ℚ) : 0 ≤ sumSq a := by
  apply List.sum_nonneg
  intro x hx
  rcases List.mem_map.1 hx with ⟨y, _, rfl⟩
  exact mul_self_nonneg y

theorem dotQ_nonneg {a b : List ℚ} (ha : ∀ x ∈ a, 0 ≤ x) (hb : ∀ y ∈ b, 0 ≤ y) :
    0 ≤ dotQ a b := by
  apply List.sum_nonneg
  intro x hx
  rcases List.mem_map.1 hx with ⟨p, hp, rfl⟩
  rcases List.of_mem_zip hp with ⟨h1, h2⟩
  exact mul_nonneg (ha _ h1) (hb _ h2)

theorem pyNorm_pos {fsqrt : ℚ → ℚ} (hsq : ∀ x, 0 ≤ x → 0 ≤ fsqrt x)
    (a : List ℚ) : 0 < pyNorm fsqrt a := by
  unfold pyNorm pyOr1
  split
  · norm_num
  · rename_i hne
    exact lt_of_le_of_ne (hsq _ (sumSq_nonneg a)) (Ne.symm hne)

theorem embed_nonneg {digest : String → List ℕ} {fsqrt : ℚ → ℚ}
    (hsq : ∀ x, 0 ≤ x → 0 ≤ fsqrt x) (dim : ℕ) (t : String) :
    ∀ v ∈ embed digest fsqrt dim t, 0 ≤ v := by
  intro v hv
  simp only [embed, List.mem_map] at hv
  obtain ⟨x, ⟨n, hn, rfl⟩, rfl⟩ := hv
  have h1 : (0 : ℚ) ≤ (n : ℚ) / 255 :=
    div_nonneg (by exact_mod_cast Nat.zero_le n) (by norm_num)
  exact div_nonneg h1 (le_of_lt (pyNorm_pos hsq _))

theorem cosQ_nonneg {fsqrt : ℚ → ℚ} (hsq : ∀ x, 0 ≤ x → 0 ≤ fsqrt x)
    {a b : List ℚ} (ha : ∀ x ∈ a, 0 ≤ x) (hb : ∀ y ∈ b, 0 ≤ y) :
    0 ≤ cosQ fsqrt a b :=
  div_nonneg (dotQ_nonneg ha hb)
    (le_of_lt (mul_pos (pyNorm_pos hsq a) (pyNorm_pos hsq b)))

/-! ### What `citeFact` preserves -/

theorem citeFact_score (digest : String → List ℕ) (fsqrt : ℚ → ℚ)
    (dvecs : List (List ℚ)) (ns : ℕ) (g : Fact) :
    (citeFact digest fsqrt dvecs ns g).score = g.score := by
  unfold citeFact
  split
  · rfl
  · split <;> rfl

theorem citeFact_stripCit (digest : String → List ℕ) (fsqrt : ℚ → ℚ)
    (dvecs : List (List ℚ)) (ns : ℕ) (g : Fact) :
    stripCit (citeFact digest fsqrt dvecs ns g) = stripCit g := by
  unfold citeFact stripCit
  split
  · rfl
  · split <;> rfl

theorem citeFact_meta (digest : String → List ℕ) (fsqrt : ℚ → ℚ)
    (dvecs : List (List ℚ)) (ns : ℕ) (g : Fact) :
    (citeFact digest fsqrt dvecs ns g).meta = g.meta := by
  unfold citeFact
  split
  · rfl
  · split <;> rfl

theorem citeFact_claimStr (digest : String → List ℕ) (fsqrt : ℚ → ℚ)
    (dvecs : List (List ℚ)) (ns : ℕ) (g : Fact) :
    claimStr (citeFact digest fsqrt dvecs ns g) = claimStr g := by
  unfold citeFact claimStr
  split
  · rfl
  · split <;> rfl

/-! ### First-occurrence index lemmas -/

theorem firstIdxOf_lt_length {m : ℚ} : ∀ {l : List ℚ}, m ∈ l →
    firstIdxOf m l < l.length := by
  intro l
  induction l with
  | nil => intro h; simp at h
  | cons x xs ih =>
    intro h
    rw [firstIdxOf_cons]
    by_cases hx : x = m
    · simp [hx]
    · rcases List.mem_cons.1 h with h1 | h1
      · exact absurd h1.symm hx
      · simpa [hx, Nat.add_lt_add_iff_right] using ih h1

theorem getElem_firstIdxOf {m : ℚ} : ∀ {l : List ℚ}, m ∈ l →
    l[firstIdxOf m l]? = some m := by
  intro l
  induction l with
  | nil => intro h; simp at h
  | cons x xs ih =>
    intro h
    rw [firstIdxOf_cons]
    by_cases hx : x = m
    · simp [hx]
    · rcases List.mem_cons.1 h with h1 | h1
      · exact absurd h1.symm hx
      · simpa [hx] using ih h1

theorem before_firstIdxOf {m : ℚ} : ∀ {l : List ℚ} {j : ℕ},
    j < firstIdxOf m l → l[j]? ≠ some m := by
  intro l
  induction l with
  | nil => intro j h; simp [firstIdxOf] at h
  | cons x xs ih =>
    intro j h
    rw [firstIdxOf_cons] at h
    by_cases hx : x = m
    · rw [if_pos hx] at h
      omega
    · rw [if_neg hx] at h
      cases j with
      | zero => simpa using hx
      | succ j' =>
        have : j' < firstIdxOf m xs := by omega
        simpa using ih this

/-! ### Where result facts come from -/

theorem mem_expandedFacts {kg : String → ℕ → Except Unit (List Nbr)}
    {hits : List Hit} {cands : List String} {f : Fact} :
    f ∈ expandedFacts kg hits cands ↔
      ∃ c ∈ cands.take 3, ∃ n ∈ neighborsOf kg c,
        f = mkFact (idScore hits c) n := by
  unfold expandedFacts factsFor
  rw [List.mem_flatMap]
  constructor
  · rintro ⟨c, hc, hf⟩
    rcases List.mem_map.1 hf with ⟨n, hn, rfl⟩
    exact ⟨c, hc, n, hn, rfl⟩
  · rintro ⟨c, hc, n, hn, rfl⟩
    exact ⟨c, hc, List.mem_map_of_mem _ hn⟩

theorem facts_eq_citePass (digest : String → List ℕ) (fsqrt : ℚ → ℚ)
    (kg : String → ℕ → Except Unit (List Nbr))
    (vs : String → List ℚ → ℕ → Except Unit (List Hit))
    (question : String) (top_k : ℕ) (wd : Option (List Doc))
    (tone : String) (length : ℤ) (audience : String) (timeframe : ℤ) :
    (hybridAnswer digest fsqrt kg vs question top_k wd tone length audience
        timeframe).facts =
      citePass digest fsqrt (sourcesOf wd) (docsOf wd)
        (sortFactsDesc (expandedFacts kg
          (vectorHits digest fsqrt vs question top_k)
          (candidateIds (vectorHits digest fsqrt vs question top_k) question))) :=
  rfl

theorem mem_result_facts {digest : String → List ℕ} {fsqrt : ℚ → ℚ}
    {kg : String → ℕ → Except Unit (List Nbr)}
    {vs : String → List ℚ → ℕ → Except Unit (List Hit)}
    {question : String} {top_k : ℕ} {wd : Option (List Doc)}
    {tone : String} {length : ℤ} {audience : String} {timeframe : ℤ} {f : Fact}
    (hf : f ∈ (hybridAnswer digest fsqrt kg vs question top_k wd tone length
        audience timeframe).facts) :
    ∃ c ∈ (candidateIds (vectorHits digest fsqrt vs question top_k)
        question).take 3,
      ∃ n ∈ neighborsOf kg c,
        f.score = (mkFact (idScore (vectorHits digest fsqrt vs question top_k)
          c) n).score ∧ f.meta = n.meta := by
  rw [facts_eq_citePass] at hf
  unfold citePass at hf
  have hmem : ∃ g ∈ sortFactsDesc (expandedFacts kg
      (vectorHits digest fsqrt vs question top_k)
      (candidateIds (vectorHits digest fsqrt vs question top_k) question)),
      f.score = g.score ∧ f.meta = g.meta := by
    split at hf
    · rcases List.mem_map.1 hf with ⟨g, hg, rfl⟩
      exact ⟨g, hg, citeFact_score _ _ _ _ g, citeFact_meta _ _ _ _ g⟩
    · exact ⟨f, hf, rfl, rfl⟩
  rcases hmem with ⟨g, hg, hsc, hme⟩
  rcases mem_expandedFacts.1 (mem_sortFactsDesc.1 hg) with ⟨c, hc, n, hn, rfl⟩
  exact ⟨c, hc, n, hn, hsc, by simpa using hme⟩

/-! ### Sources/docs bookkeeping -/

theorem sourcesOf_length (wd : Option (List Doc)) :
    (sourcesOf wd).length = (docsOf wd).length := by
  simp [sourcesOf]

theorem docVecs_length (digest : String → List ℕ) (fsqrt : ℚ → ℚ)
    (docs : List Doc) : (docVecs digest fsqrt docs).length = docs.length := by
  simp [docVecs]

theorem expanded_citations_empty {kg : String → ℕ → Except Unit (List Nbr)}
    {hits : List Hit} {cands : List String} {g : Fact}
    (hg : g ∈ expandedFacts kg hits cands) : g.citations = [] := by
  rcases mem_expandedFacts.1 hg with ⟨c, _, n, _, rfl⟩
  rfl

/-! ### Citation shape of an attributed fact -/

theorem citeFact_cit_spec (digest : String → List ℕ) (fsqrt : ℚ → ℚ)
    (dvecs : List (List ℚ)) (ns : ℕ) (g : Fact) :
    (∃ i, (citeFact digest fsqrt dvecs ns g).citations = [i + 1] ∧
      i < dvecs.length) ∨
    (citeFact digest fsqrt dvecs ns g).citations = [1] ∨
    (citeFact digest fsqrt dvecs ns g).citations = g.citations := by
  unfold citeFact
  cases hb : bestIdx (dvecs.map (fun dv =>
      cosQ fsqrt (embed digest fsqrt 256 (claimStr g)) dv)) with
  | some i =>
    left
    refine ⟨i, rfl, ?_⟩
    have := bestIdx_lt_length hb
    simpa using this
  | none =>
    right
    by_cases hns : ns ≠ 0
    · left
      simp [hns]
    · right
      simp [hns]

theorem citePass_pairwise {digest : String → List ℕ} {fsqrt : ℚ → ℚ}
    {srcs : List Source} {docs : List Doc} {l : List Fact}
    (hp : l.Pairwise (fun a b => b.score ≤ a.score)) :
    (citePass digest fsqrt srcs docs l).Pairwise
      (fun a b => b.score ≤ a.score) := by
  unfold citePass
  split
  · rw [List.pairwise_map]
    refine hp.imp ?_
    intro a b hab
    rw [citeFact_score, citeFact_score]
    exact hab
  · exact hp

theorem citePass_filter_strip (digest : String → List ℕ) (fsqrt : ℚ → ℚ)
    (srcs : List Source) (docs : List Doc) (l : List Fact) (s : ℚ) :
    ((citePass digest fsqrt srcs docs l).filter
        (fun g => decide (g.score = s))).map stripCit =
      (l.filter (fun g => decide (g.score = s))).map stripCit := by
  unfold citePass
  split
  · rw [List.filter_map]
    have hpred : ((fun g => decide (g.score = s)) ∘
        (citeFact digest fsqrt (docVecs digest fsqrt docs) srcs.length)) =
        (fun g => decide (g.score = s)) := by
      funext g
      simp [Function.comp, citeFact_score]
    rw [hpred, List.map_map]
    congr 1
    funext g
    simp [Function.comp, citeFact_stripCit]
  · rfl

theorem citePass_mem_citations {digest : String → List ℕ} {fsqrt : ℚ → ℚ}
    {srcs : List Source} {docs : List Doc} {l : List Fact} {f : Fact}
    (hcit : ∀ g ∈ l, g.citations = [])
    (hlen : docs.length = srcs.length)
    (hf : f ∈ citePass digest fsqrt srcs docs l) :
    f.citations = [] ∨
    (srcs ≠ [] ∧ ∃ i, f.citations = [i + 1] ∧ i + 1 ≤ srcs.length) := by
  unfold citePass at hf
  split at hf
  · rename_i hguard
    rcases List.mem_map.1 hf with ⟨g, hg, rfl⟩
    rcases citeFact_cit_spec digest fsqrt (docVecs digest fsqrt docs)
        srcs.length g with ⟨i, hi, hilt⟩ | h1 | h1
    · right
      refine ⟨hguard.1, i, hi, ?_⟩
      rw [docVecs_length, hlen] at hilt
      omega
    · right
      refine ⟨hguard.1, 0, by simpa using h1, ?_⟩
      have : srcs ≠ [] := hguard.1
      have : 0 < srcs.length := List.length_pos.2 this
      omega
    · left
      rw [h1]
      exact hcit g hg
  · left
    exact hcit f hf

theorem citeFact_idem (digest : String → List ℕ) (fsqrt : ℚ → ℚ)
    (dvecs : List (List ℚ)) (ns : ℕ) (g : Fact) :
    citeFact digest fsqrt dvecs ns (citeFact digest fsqrt dvecs ns g) =
      citeFact digest fsqrt dvecs ns g := by
  cases hb : bestIdx (dvecs.map (fun dv =>
      cosQ fsqrt (embed digest fsqrt 256 (claimStr g)) dv)) with
  | some i =>
    have hg : citeFact digest fsqrt dvecs ns g = { g with citations := [i+1] } := by
      unfold citeFact
      rw [hb]
    rw [hg]
    show citeFact digest fsqrt dvecs ns { g with citations := [i + 1] } = _
    unfold citeFact
    have hcl : claimStr { g with citations := [i+1] } = claimStr g := rfl
    rw [hcl, hb]
  | none =>
    by_cases hns : ns ≠ 0
    · have hg : citeFact digest fsqrt dvecs ns g = { g with citations := [1] } := by
        unfold citeFact
        rw [hb]
        simp [hns]
      rw [hg]
      show citeFact digest fsqrt dvecs ns { g with citations := [1] } = _
      unfold citeFact
      have hcl : claimStr { g with citations := [1] } = claimStr g := rfl
      rw [hcl, hb]
      simp [hns]
    · have hg : citeFact digest fsqrt dvecs ns g = g := by
        unfold citeFact
        rw [hb]
        simp [hns]
      rw [hg, hg]

/-! ## Claim theorems -/

/-- Claim C4: `hybrid_answer` is total on its typed inputs (it is a Lean
function, so it returns a well-formed `HybridResult` on every input without
propagating any exception); moreover, when the vector store and the graph
store raise on every call and `web_docs` is `None` or the empty list, the
result has `facts = []`, `vector_hits = []` and `confidence = "low"`. -/
theorem C4_total_and_degraded (digest : String → List ℕ) (fsqrt : ℚ → ℚ)
    (question : String) (top_k : ℕ) (tone : String) (length : ℤ)
    (audience : String) (timeframe : ℤ) :
    ((hybridAnswer digest fsqrt errKG errVS question top_k none tone length
        audience timeframe).facts = [] ∧
      (hybridAnswer digest fsqrt errKG errVS question top_k none tone length
        audience timeframe).vector_hits = [] ∧
      (hybridAnswer digest fsqrt errKG errVS question top_k none tone length
        audience timeframe).confidence = "low") ∧
    ((hybridAnswer digest fsqrt errKG errVS question top_k (some []) tone
        length audience timeframe).facts = [] ∧
      (hybridAnswer digest fsqrt errKG errVS question top_k (some []) tone
        length audience timeframe).vector_hits = [] ∧
      (hybridAnswer digest fsqrt errKG errVS question top_k (some []) tone
        length audience timeframe).confidence = "low") := by
  exact ⟨⟨rfl, rfl, rfl⟩, ⟨rfl, rfl, rfl⟩⟩

/-- Claim C6: the confidence of every result is exactly `confOf` of the
number of sources — `"high"` for ≥ 3 sources, `"medium"` for exactly 2,
`"low"` otherwise — checked additionally at the boundary source counts
0, 1, 2, 3 and 4 through the whole pipeline. -/
theorem C6_confidence_thresholds (digest : String → List ℕ) (fsqrt : ℚ → ℚ)
    (kg : String → ℕ → Except Unit (List Nbr))
    (vs : String → List ℚ → ℕ → Except Unit (List Hit))
    (question : String) (top_k : ℕ) (wd : Option (List Doc))
    (tone : String) (length : ℤ) (audience : String) (timeframe : ℤ)
    (d : Doc) :
    ((hybridAnswer digest fsqrt kg vs question top_k wd tone length audience
        timeframe).confidence =
      confOf (hybridAnswer digest fsqrt kg vs question top_k wd tone length
        audience timeframe).sources.length) ∧
    (confOf 0 = "low" ∧ confOf 1 = "low" ∧ confOf 2 = "medium" ∧
      confOf 3 = "high" ∧ confOf 4 = "high") ∧
    (∀ k : ℕ, (hybridAnswer digest fsqrt kg vs question top_k
        (some (List.replicate k d)) tone length audience
        timeframe).confidence = confOf (min 10 k)) := by
  refine ⟨rfl, ⟨rfl, rfl, rfl, rfl, rfl⟩, ?_⟩
  intro k
  show confOf (sourcesOf (some (List.replicate k d))).length = confOf (min 10 k)
  congr 1
  simp [sourcesOf, docsOf]

/-- Claim C2: in every result the facts list is sorted by score in
descending order (earlier facts have scores at least as large), and the
sort is stable: for every score value, the facts carrying that score appear
in exactly the encounter order of the expansion (up to the later-added
citations field, which the sort itself never touches). -/
theorem C2_facts_sorted_stable (digest : String → List ℕ) (fsqrt : ℚ → ℚ)
    (kg : String → ℕ → Except Unit (List Nbr))
    (vs : String → List ℚ → ℕ → Except Unit (List Hit))
    (question : String) (top_k : ℕ) (wd : Option (List Doc))
    (tone : String) (length : ℤ) (audience : String) (timeframe : ℤ) :
    ((hybridAnswer digest fsqrt kg vs question top_k wd tone length audience
        timeframe).facts.Pairwise (fun a b => b.score ≤ a.score)) ∧
    (∀ s : ℚ,
      ((hybridAnswer digest fsqrt kg vs question top_k wd tone length
          audience timeframe).facts.filter
        (fun g => decide (g.score = s))).map stripCit =
      ((expandedFacts kg (vectorHits digest fsqrt vs question top_k)
          (candidateIds (vectorHits digest fsqrt vs question top_k)
            question)).filter
        (fun g => decide (g.score = s))).map stripCit) := by
  constructor
  · rw [facts_eq_citePass]
    exact citePass_pairwise (pairwise_sortFactsDesc _)
  · intro s
    rw [facts_eq_citePass, citePass_filter_strip, filter_sortFactsDesc]

/-- Claim C9: for fixed embedding (digest/sqrt) functions and fixed store
behaviours, `hybrid_answer` is deterministic (the model is a pure function,
so two runs on identical inputs are identical), and in particular citation
attribution is idempotent: re-running the citation pass on its own output,
with the same sources and document sequence, changes nothing. -/
theorem C9_deterministic_idempotent (digest : String → List ℕ)
    (fsqrt : ℚ → ℚ) (kg : String → ℕ → Except Unit (List Nbr))
    (vs : String → List ℚ → ℕ → Except Unit (List Hit))
    (question : String) (top_k : ℕ) (wd : Option (List Doc))
    (tone : String) (length : ℤ) (audience : String) (timeframe : ℤ) :
    (hybridAnswer digest fsqrt kg vs question top_k wd tone length audience
        timeframe =
      hybridAnswer digest fsqrt kg vs question top_k wd tone length audience
        timeframe) ∧
    (∀ (srcs : List Source) (docs : List Doc) (facts : List Fact),
      citePass digest fsqrt srcs docs (citePass digest fsqrt srcs docs facts)
        = citePass digest fsqrt srcs docs facts) := by
  refine ⟨rfl, ?_⟩
  intro srcs docs facts
  by_cases hg : srcs ≠ [] ∧ facts ≠ [] ∧ docs ≠ []
  · have h1 : citePass digest fsqrt srcs docs facts =
        facts.map (citeFact digest fsqrt (docVecs digest fsqrt docs)
          srcs.length) := by
      unfold citePass
      rw [if_pos hg]
    have hg2 : srcs ≠ [] ∧
        facts.map (citeFact digest fsqrt (docVecs digest fsqrt docs)
          srcs.length) ≠ [] ∧ docs ≠ [] := by
      refine ⟨hg.1, ?_, hg.2.2⟩
      simpa using hg.2.1
    rw [h1]
    unfold citePass
    rw [if_pos hg2, List.map_map]
    apply List.map_congr_left
    intro g _
    exact citeFact_idem digest fsqrt (docVecs digest fsqrt docs) srcs.length g
  · unfold citePass
    rw [if_neg hg, if_neg hg]

/-! ### Citation invariants of the full pipeline (shared by C5 and C10) -/

theorem result_citations_shape {digest : String → List ℕ} {fsqrt : ℚ → ℚ}
    {kg : String → ℕ → Except Unit (List Nbr)}
    {vs : String → List ℚ → ℕ → Except Unit (List Hit)}
    {question : String} {top_k : ℕ} {wd : Option (List Doc)}
    {tone : String} {length : ℤ} {audience : String} {timeframe : ℤ}
    {f : Fact} (hf : f ∈ (hybridAnswer digest fsqrt kg vs question top_k wd
        tone length audience timeframe).facts) :
    f.citations = [] ∨
    ((sourcesOf wd) ≠ [] ∧ ∃ i, f.citations = [i + 1] ∧
      i + 1 ≤ (sourcesOf wd).length) := by
  rw [facts_eq_citePass] at hf
  have hcit : ∀ g ∈ sortFactsDesc (expandedFacts kg
      (vectorHits digest fsqrt vs question top_k)
      (candidateIds (vectorHits digest fsqrt vs question top_k) question)),
      g.citations = [] := by
    intro g hg
    exact expanded_citations_empty (mem_sortFactsDesc.1 hg)
  exact citePass_mem_citations hcit (sourcesOf_length wd).symm hf

/-- Claim C5: in every result, each fact's citations list has length at most
one; an element, when present, is a 1-based index valid within the number of
sources; and when there are no sources every fact's citations list is
empty. -/
theorem C5_citations_invariant (digest : String → List ℕ) (fsqrt : ℚ → ℚ)
    (kg : String → ℕ → Except Unit (List Nbr))
    (vs : String → List ℚ → ℕ → Except Unit (List Hit))
    (question : String) (top_k : ℕ) (wd : Option (List Doc))
    (tone : String) (length : ℤ) (audience : String) (timeframe : ℤ)
    (f : Fact) (hf : f ∈ (hybridAnswer digest fsqrt kg vs question top_k wd
        tone length audience timeframe).facts) :
    f.citations.length ≤ 1 ∧
    (∀ i ∈ f.citations, 1 ≤ i ∧
      i ≤ (hybridAnswer digest fsqrt kg vs question top_k wd tone length
        audience timeframe).sources.length) ∧
    ((hybridAnswer digest fsqrt kg vs question top_k wd tone length audience
        timeframe).sources = [] → f.citations = []) := by
  have hsrc : (hybridAnswer digest fsqrt kg vs question top_k wd tone length
      audience timeframe).sources = sourcesOf wd := rfl
  rcases result_citations_shape hf with h | ⟨hne, i, hi, hle⟩
  · rw [h]
    refine ⟨by simp, by simp, fun _ => rfl⟩
  · rw [hi]
    refine ⟨by simp, ?_, ?_⟩
    · intro j hj
      have : j = i + 1 := by simpa using hj
      subst this
      rw [hsrc]
      omega
    · intro hempty
      rw [hsrc] at hempty
      exact absurd hempty hne

/-- Claim C10 (implicit): only the first 10 entries of `web_docs` matter:
the sources are exactly the projection of `web_docs[:10]` in order, so there
are at most 10 sources; confidence is derived from `min(len(web_docs), 10)`;
and every citation index refers to one of those first 10 documents. -/
theorem C10_first_ten_docs (digest : String → List ℕ) (fsqrt : ℚ → ℚ)
    (kg : String → ℕ → Except Unit (List Nbr))
    (vs : String → List ℚ → ℕ → Except Unit (List Hit))
    (question : String) (top_k : ℕ) (wd : Option (List Doc))
    (tone : String) (length : ℤ) (audience : String) (timeframe : ℤ) :
    ((hybridAnswer digest fsqrt kg vs question top_k wd tone length audience
        timeframe).sources = ((wd.getD []).take 10).map mkSource) ∧
    ((hybridAnswer digest fsqrt kg vs question top_k wd tone length audience
        timeframe).sources.length ≤ 10) ∧
    ((hybridAnswer digest fsqrt kg vs question top_k wd tone length audience
        timeframe).confidence = confOf (min 10 (wd.getD []).length)) ∧
    (∀ f ∈ (hybridAnswer digest fsqrt kg vs question top_k wd tone length
        audience timeframe).facts,
      ∀ i ∈ f.citations, 1 ≤ i ∧ i ≤ min 10 (wd.getD []).length) := by
  have hlen : (sourcesOf wd).length = min 10 (wd.getD []).length := by
    simp [sourcesOf, docsOf]
  refine ⟨rfl, ?_, ?_, ?_⟩
  · show (sourcesOf wd).length ≤ 10
    rw [hlen]
    omega
  · show confOf (sourcesOf wd).length = _
    rw [hlen]
  · intro f hf i hi
    rcases result_citations_shape hf with h | ⟨_, j, hj, hle⟩
    · rw [h] at hi
      simp at hi
    · rw [hj] at hi
      have : i = j + 1 := by simpa using hi
      subst this
      rw [hlen] at hle
      omega

/-- Claim C1, amended: every fact in the result comes from one of the (at
most 3) selected candidates `c`, its score is exactly
`round4(normalized_score(c) + bonuses)` with `+0.10` for preferred rank and
`+0.05` for a P31/P279 predicate code; and no fact's score exceeds
`round4(normalized_score(c)) + 0.15` (the rounding applied to the bonused
sum can push the score up to 0.00005 above the un-rounded
`normalized_score(c) + 0.15` of the original claim, see the
counterexample). -/
theorem C1_score_formula_amended (digest : String → List ℕ) (fsqrt : ℚ → ℚ)
    (kg : String → ℕ → Except Unit (List Nbr))
    (vs : String → List ℚ → ℕ → Except Unit (List Hit))
    (question : String) (top_k : ℕ) (wd : Option (List Doc))
    (tone : String) (length : ℤ) (audience : String) (timeframe : ℤ)
    (f : Fact) (hf : f ∈ (hybridAnswer digest fsqrt kg vs question top_k wd
        tone length audience timeframe).facts) :
    ∃ c ∈ (candidateIds (vectorHits digest fsqrt vs question top_k)
        question).take 3,
      f.score = roundQ4 (idScore (vectorHits digest fsqrt vs question top_k)
        c + bonus f.meta) ∧
      f.score ≤ roundQ4 (idScore (vectorHits digest fsqrt vs question top_k)
        c) + 3/20 := by
  rcases mem_result_facts hf with ⟨c, hc, n, hn, hsc, hme⟩
  refine ⟨c, hc, ?_, ?_⟩
  · rw [hsc, hme]
    rfl
  · rw [hsc]
    exact (mkFact_score _ n).2.1

/-- Claim C7, amended: provided the vector store returns non-negative raw
scores (as similarity scores are), every candidate's normalized score lies
in `[0, 1]` and every fact score in the result is non-negative.  For
arbitrary raw floats both parts fail, see the counterexample. -/
theorem C7_nonneg_amended (digest : String → List ℕ) (fsqrt : ℚ → ℚ)
    (kg : String → ℕ → Except Unit (List Nbr))
    (vs : String → List ℚ → ℕ → Except Unit (List Hit))
    (question : String) (top_k : ℕ) (wd : Option (List Doc))
    (tone : String) (length : ℤ) (audience : String) (timeframe : ℤ)
    (hpos : ∀ x ∈ vectorHits digest fsqrt vs question top_k,
      0 ≤ hitScore x) :
    (∀ key : String,
      0 ≤ idScore (vectorHits digest fsqrt vs question top_k) key ∧
      idScore (vectorHits digest fsqrt vs question top_k) key ≤ 1) ∧
    (∀ f ∈ (hybridAnswer digest fsqrt kg vs question top_k wd tone length
        audience timeframe).facts, 0 ≤ f.score) := by
  constructor
  · intro key
    exact idScore_mem_unit _ hpos key
  · intro f hf
    rcases mem_result_facts hf with ⟨c, _, n, _, hsc, _⟩
    rw [hsc]
    exact (mkFact_score _ n).2.2 (idScore_mem_unit _ hpos c).1

/-- Claim C8, amended: the code's cosine is
`dot(a,b) / (da * db)` where each factor is the L2 norm with a zero norm
replaced by 1.0 (Python's `or 1.0`), not `max(norm, 1.0)`; the denominator
is always positive, so an all-zero embedding (whose norm factor becomes
exactly 1) never causes a division by zero. -/
theorem C8_cosine_amended (fsqrt : ℚ → ℚ)
    (hsq : ∀ x, 0 ≤ x → 0 ≤ fsqrt x) (h0 : fsqrt 0 = 0) (a b : List ℚ) :
    cosQ fsqrt a b = dotQ a b / (pyNorm fsqrt a * pyNorm fsqrt b) ∧
    pyNorm fsqrt a = (if fsqrt (sumSq a) = 0 then 1 else fsqrt (sumSq a)) ∧
    0 < pyNorm fsqrt a * pyNorm fsqrt b ∧
    ((∀ x ∈ a, x = 0) → pyNorm fsqrt a = 1) := by
  refine ⟨rfl, rfl, mul_pos (pyNorm_pos hsq a) (pyNorm_pos hsq b), ?_⟩
  intro hz
  have hs : sumSq a = 0 := by
    apply List.sum_eq_zero
    intro x hx
    rcases List.mem_map.1 hx with ⟨y, hy, rfl⟩
    rw [hz y hy]
    ring
  unfold pyNorm
  rw [hs, h0]
  rfl

/-- Claim C3: when sources, facts and documents are all non-empty, every
fact in the result cites exactly the (first) document of maximal cosine
similarity with its claim string, 1-based; since the hash embedder produces
non-negative vectors, all similarities are non-negative, and whenever none
is strictly positive they are all zero, so the cited document is #1 — which
is the claimed fallback to source #1; and when there are no sources at all
every fact's citations list stays empty. -/
theorem C3_citation_attribution (digest : String → List ℕ) (fsqrt : ℚ → ℚ)
    (kg : String → ℕ → Except Unit (List Nbr))
    (vs : String → List ℚ → ℕ → Except Unit (List Hit))
    (question : String) (top_k : ℕ) (wd : Option (List Doc))
    (tone : String) (length : ℤ) (audience : String) (timeframe : ℤ)
    (hsq : ∀ x, 0 ≤ x → 0 ≤ fsqrt x) :
    ((sourcesOf wd ≠ [] ∧
      sortFactsDesc (expandedFacts kg
        (vectorHits digest fsqrt vs question top_k)
        (candidateIds (vectorHits digest fsqrt vs question top_k)
          question)) ≠ [] ∧ docsOf wd ≠ []) →
      ∀ f ∈ (hybridAnswer digest fsqrt kg vs question top_k wd tone length
          audience timeframe).facts,
        (f.citations = [firstIdxOf
          (maxD ((docVecs digest fsqrt (docsOf wd)).map (fun dv =>
            cosQ fsqrt (embed digest fsqrt 256 (claimStr f)) dv)))
          ((docVecs digest fsqrt (docsOf wd)).map (fun dv =>
            cosQ fsqrt (embed digest fsqrt 256 (claimStr f)) dv)) + 1]) ∧
        (∀ c ∈ (docVecs digest fsqrt (docsOf wd)).map (fun dv =>
            cosQ fsqrt (embed digest fsqrt 256 (claimStr f)) dv),
          c ≤ maxD ((docVecs digest fsqrt (docsOf wd)).map (fun dv =>
            cosQ fsqrt (embed digest fsqrt 256 (claimStr f)) dv))) ∧
        ((∀ c ∈ (docVecs digest fsqrt (docsOf wd)).map (fun dv =>
            cosQ fsqrt (embed digest fsqrt 256 (claimStr f)) dv), c ≤ 0) →
          f.citations = [1])) ∧
    (sourcesOf wd = [] →
      ∀ f ∈ (hybridAnswer digest fsqrt kg vs question top_k wd tone length
          audience timeframe).facts, f.citations = []) := by
  constructor
  · intro hne f hf
    rw [facts_eq_citePass] at hf
    unfold citePass at hf
    rw [if_pos hne] at hf
    rcases List.mem_map.1 hf with ⟨g, hg, rfl⟩
    have hcl : claimStr (citeFact digest fsqrt
        (docVecs digest fsqrt (docsOf wd)) (sourcesOf wd).length g) =
        claimStr g := citeFact_claimStr _ _ _ _ g
    rw [hcl]
    have hnonneg : ∀ c ∈ (docVecs digest fsqrt (docsOf wd)).map (fun dv =>
        cosQ fsqrt (embed digest fsqrt 256 (claimStr g)) dv), 0 ≤ c := by
      intro c hc
      rcases List.mem_map.1 hc with ⟨dv, hdv, rfl⟩
      rcases List.mem_map.1 hdv with ⟨d, _, rfl⟩
      exact cosQ_nonneg hsq (embed_nonneg hsq 256 (claimStr g))
        (embed_nonneg hsq 256 (docText d))
    rcases hcsne : (docVecs digest fsqrt (docsOf wd)).map (fun dv =>
        cosQ fsqrt (embed digest fsqrt 256 (claimStr g)) dv) with _ | ⟨c0, cs⟩
    · exfalso
      have hlen := congrArg List.length hcsne
      rw [List.length_map, docVecs_length] at hlen
      exact hne.2.2 (List.length_eq_zero.1 hlen)
    · rw [hcsne] at hnonneg
      have h0 : 0 ≤ c0 := hnonneg c0 (List.mem_cons_self c0 cs)
      have hcf : citeFact digest fsqrt (docVecs digest fsqrt (docsOf wd))
          (sourcesOf wd).length g =
          { g with citations :=
            [firstIdxOf (maxD (c0 :: cs)) (c0 :: cs) + 1] } := by
        unfold citeFact
        rw [hcsne, bestIdx_eq_firstIdx cs (lt_of_lt_of_le (by norm_num) h0)]
      rw [hcf]
      refine ⟨rfl, ?_, ?_⟩
      · intro c hc
        exact mem_le_maxD hc
      · intro hle0
        have hc00 : c0 = 0 := le_antisymm (hle0 c0 (List.mem_cons_self c0 cs)) h0
        have hM0 : maxD (c0 :: cs) = 0 := by
          have h1 : maxD (c0 :: cs) ≤ 0 :=
            hle0 _ (maxD_mem (by simp))
          have h2 : c0 ≤ maxD (c0 :: cs) :=
            mem_le_maxD (List.mem_cons_self c0 cs)
          linarith
        show ([firstIdxOf (maxD (c0 :: cs)) (c0 :: cs) + 1] : List ℕ) = [1]
        rw [hM0, firstIdxOf_cons, if_pos hc00]
  · intro hempty f hf
    rw [facts_eq_citePass] at hf
    unfold citePass at hf
    rw [if_neg (by intro h; exact h.1 hempty)] at hf
    exact expanded_citations_empty (mem_sortFactsDesc.1 hf)

/-! ### Properties of the concrete `ratSqrt` used to instantiate `fsqrt` -/

theorem ratSqrt_nonneg (q : ℚ) : 0 ≤ ratSqrt q := by
  unfold ratSqrt
  apply div_nonneg
  · exact_mod_cast Nat.zero_le _
  · exact_mod_cast Nat.zero_le _

theorem ratSqrt_hsq : ∀ x : ℚ, 0 ≤ x → 0 ≤ ratSqrt x :=
  fun x _ => ratSqrt_nonneg x

theorem ratSqrt_zero : ratSqrt 0 = 0 := by
  have h0 : isqrt 0 = 0 := by decide
  have h1 : isqrt 1 = 1 := by decide
  have hn : (0 : ℚ).num = 0 := rfl
  have hd : (0 : ℚ).den = 1 := rfl
  unfold ratSqrt
  rw [hn, hd]
  norm_num [h0, h1]

/-! ## Counterexamples and witnesses

The counterexamples and witnesses evaluate the pipeline on small concrete
inputs; the `Rat` arithmetic operations are unsealed so that `decide` can
reduce them in the kernel. -/

section ConcreteEvaluation

attribute [local semireducible] Rat.mul Rat.add Rat.inv Rat.sub

set_option maxHeartbeats 2000000

/-- Claim C1, counterexample: with raw hit scores 100000 (candidate `A`) and
6 (candidate `B`), candidate `B`'s normalized score is `6/100000 = 0.00006`;
its one preferred P31 fact gets score `round4(0.15006) = 0.1501`, which
STRICTLY exceeds `normalized_score(B) + 0.15 = 0.15006` — so the claim's
bound `score ≤ normalized_score(c) + 0.15` is false on the code. -/
theorem C1_counterexample :
    ((hybridAnswer digest0 ratSqrt
      (fun nid _ => if nid = "B" then .ok [⟨some "B", some "p", some "x",
          some ⟨some "preferred", some "P31", none⟩⟩] else .ok [])
      (fun _ _ _ => .ok [⟨some 100000, some ⟨some "A", none⟩⟩,
                         ⟨some 6, some ⟨some "B", none⟩⟩])
      "q" 5 none "neutral" 300 "general" 90).facts.map (fun f => f.score)
      = [1501/10000]) ∧
    ((hybridAnswer digest0 ratSqrt
      (fun nid _ => if nid = "B" then .ok [⟨some "B", some "p", some "x",
          some ⟨some "preferred", some "P31", none⟩⟩] else .ok [])
      (fun _ _ _ => .ok [⟨some 100000, some ⟨some "A", none⟩⟩,
                         ⟨some 6, some ⟨some "B", none⟩⟩])
      "q" 5 none "neutral" 300 "general" 90).selected_entities = ["A", "B"]) ∧
    (idScore (vectorHits digest0 ratSqrt
      (fun _ _ _ => .ok [⟨some 100000, some ⟨some "A", none⟩⟩,
                         ⟨some 6, some ⟨some "B", none⟩⟩]) "q" 5) "B"
      = 6/100000) ∧
    ¬ ((1501/10000 : ℚ) ≤ 6/100000 + (1/10 + 1/20)) := by
  refine ⟨by decide, by decide, by decide, by decide⟩

/-- Witness for claim C1's amended theorem at the counterexample input. -/
theorem C1_witness :
    ∃ c ∈ (candidateIds (vectorHits digest0 ratSqrt
      (fun _ _ _ => .ok [⟨some 100000, some ⟨some "A", none⟩⟩,
                         ⟨some 6, some ⟨some "B", none⟩⟩]) "q" 5) "q").take 3,
      (⟨some "B", some "p", some "x",
          some ⟨some "preferred", some "P31", none⟩, 1501/10000, []⟩ :
        Fact).score =
        roundQ4 (idScore (vectorHits digest0 ratSqrt
          (fun _ _ _ => .ok [⟨some 100000, some ⟨some "A", none⟩⟩,
                             ⟨some 6, some ⟨some "B", none⟩⟩]) "q" 5) c +
          bonus (⟨some "B", some "p", some "x",
            some ⟨some "preferred", some "P31", none⟩, 1501/10000, []⟩ :
              Fact).meta) ∧
      (⟨some "B", some "p", some "x",
          some ⟨some "preferred", some "P31", none⟩, 1501/10000, []⟩ :
        Fact).score ≤
        roundQ4 (idScore (vectorHits digest0 ratSqrt
          (fun _ _ _ => .ok [⟨some 100000, some ⟨some "A", none⟩⟩,
                             ⟨some 6, some ⟨some "B", none⟩⟩]) "q" 5) c) +
          3/20 :=
  C1_score_formula_amended digest0 ratSqrt
    (fun nid _ => if nid = "B" then .ok [⟨some "B", some "p", some "x",
        some ⟨some "preferred", some "P31", none⟩⟩] else .ok [])
    (fun _ _ _ => .ok [⟨some 100000, some ⟨some "A", none⟩⟩,
                       ⟨some 6, some ⟨some "B", none⟩⟩])
    "q" 5 none "neutral" 300 "general" 90
    ⟨some "B", some "p", some "x",
      some ⟨some "preferred", some "P31", none⟩, 1501/10000, []⟩
    (by decide)

/-- Claim C7, counterexample: with raw scores `-1` (candidate `A`) and `2`
(candidate `B`), the batch maximum is 2, so `A`'s normalized score is
`-1/2 ∉ [0,1]`, and `A`'s bonus-free fact has the negative score `-1/2` —
both parts of the claim are false for arbitrary raw floats. -/
theorem C7_counterexample :
    ((hybridAnswer digest0 ratSqrt
      (fun nid _ => if nid = "A" then .ok [⟨some "A", some "p", some "x",
          none⟩] else .ok [])
      (fun _ _ _ => .ok [⟨some (-1), some ⟨some "A", none⟩⟩,
                         ⟨some 2, some ⟨some "B", none⟩⟩])
      "q" 5 none "neutral" 300 "general" 90).facts.map (fun f => f.score)
      = [-(1/2)]) ∧
    (idScore (vectorHits digest0 ratSqrt
      (fun _ _ _ => .ok [⟨some (-1), some ⟨some "A", none⟩⟩,
                         ⟨some 2, some ⟨some "B", none⟩⟩]) "q" 5) "A"
      = -(1/2)) ∧
    ((-(1/2) : ℚ) < 0) := by
  refine ⟨by decide, by decide, by decide⟩

/-- Witness for claim C7's amended theorem on a batch of non-negative raw
scores. -/
theorem C7_witness :
    (0 ≤ idScore (vectorHits digest0 ratSqrt
      (fun _ _ _ => .ok [⟨some 1, some ⟨some "A", none⟩⟩,
                         ⟨some 4, some ⟨some "B", none⟩⟩]) "q" 5) "A" ∧
     idScore (vectorHits digest0 ratSqrt
      (fun _ _ _ => .ok [⟨some 1, some ⟨some "A", none⟩⟩,
                         ⟨some 4, some ⟨some "B", none⟩⟩]) "q" 5) "A" ≤ 1) ∧
    0 ≤ (⟨some "A", some "p", some "x", none, 1/4, []⟩ : Fact).score :=
  ⟨(C7_nonneg_amended digest0 ratSqrt
      (fun nid _ => if nid = "A" then .ok [⟨some "A", some "p", some "x",
          none⟩] else .ok [])
      (fun _ _ _ => .ok [⟨some 1, some ⟨some "A", none⟩⟩,
                         ⟨some 4, some ⟨some "B", none⟩⟩])
      "q" 5 none "neutral" 300 "general" 90 (by decide)).1 "A",
   (C7_nonneg_amended digest0 ratSqrt
      (fun nid _ => if nid = "A" then .ok [⟨some "A", some "p", some "x",
          none⟩] else .ok [])
      (fun _ _ _ => .ok [⟨some 1, some ⟨some "A", none⟩⟩,
                         ⟨some 4, some ⟨some "B", none⟩⟩])
      "q" 5 none "neutral" 300 "general" 90 (by decide)).2
    ⟨some "A", some "p", some "x", none, 1/4, []⟩ (by decide)⟩

/-- Claim C8, counterexample: for the vector `[1/2]` (norm `1/2`, and
`ratSqrt` computes that norm exactly: `ratSqrt (1/4) = 1/2`), the code's
`_cos` divides by the norm itself (`or 1.0` replaces only a zero norm), so
`_cos([1/2],[1]) = 1`, while the claim's `max(norm, 1.0)` flooring would
give `1/2`. -/
theorem C8_counterexample :
    ratSqrt (sumSq [(1 : ℚ)/2]) = 1/2 ∧
    cosQ ratSqrt [(1 : ℚ)/2] [(1 : ℚ)] = 1 ∧
    cosSpecMaxFloor ratSqrt [(1 : ℚ)/2] [(1 : ℚ)] = 1/2 ∧
    cosQ ratSqrt [(1 : ℚ)/2] [(1 : ℚ)] ≠
      cosSpecMaxFloor ratSqrt [(1 : ℚ)/2] [(1 : ℚ)] := by
  refine ⟨by decide, by decide, by decide, by decide⟩

/-- Witness for claim C8's amended theorem at concrete vectors (`[3, 4]` of
norm 5 and the all-zero vector `[0]`). -/
theorem C8_witness :
    (cosQ ratSqrt [(3 : ℚ), 4] [(0 : ℚ)] =
      dotQ [(3 : ℚ), 4] [(0 : ℚ)] /
        (pyNorm ratSqrt [(3 : ℚ), 4] * pyNorm ratSqrt [(0 : ℚ)])) ∧
    pyNorm ratSqrt [(0 : ℚ)] = 1 ∧
    0 < pyNorm ratSqrt [(3 : ℚ), 4] * pyNorm ratSqrt [(0 : ℚ)] :=
  ⟨(C8_cosine_amended ratSqrt ratSqrt_hsq ratSqrt_zero
      [(3 : ℚ), 4] [(0 : ℚ)]).1,
   (C8_cosine_amended ratSqrt ratSqrt_hsq ratSqrt_zero
      [(0 : ℚ)] [(3 : ℚ), 4]).2.2.2 (by decide),
   (C8_cosine_amended ratSqrt ratSqrt_hsq ratSqrt_zero
      [(3 : ℚ), 4] [(0 : ℚ)]).2.2.1⟩

/-- Witness for claim C5 at a concrete run with one graph fact and one web
document: the resulting fact cites `[1]`. -/
theorem C5_witness :
    (⟨some "q", some "p", some "x", none, 0, [1]⟩ : Fact).citations.length
      ≤ 1 ∧
    (1 ≤ 1 ∧ 1 ≤ (hybridAnswer digest0 ratSqrt
      (fun nid _ => if nid = "q" then .ok [⟨some "q", some "p", some "x",
          none⟩] else .ok [])
      errVS "q" 5 (some [⟨some "u", some "T", some "S", some "X", some "E"⟩])
      "neutral" 300 "general" 90).sources.length) :=
  ⟨(C5_citations_invariant digest0 ratSqrt
      (fun nid _ => if nid = "q" then .ok [⟨some "q", some "p", some "x",
          none⟩] else .ok [])
      errVS "q" 5 (some [⟨some "u", some "T", some "S", some "X", some "E"⟩])
      "neutral" 300 "general" 90
      ⟨some "q", some "p", some "x", none, 0, [1]⟩ (by decide)).1,
   (C5_citations_invariant digest0 ratSqrt
      (fun nid _ => if nid = "q" then .ok [⟨some "q", some "p", some "x",
          none⟩] else .ok [])
      errVS "q" 5 (some [⟨some "u", some "T", some "S", some "X", some "E"⟩])
      "neutral" 300 "general" 90
      ⟨some "q", some "p", some "x", none, 0, [1]⟩ (by decide)).2.1
    1 (by decide)⟩

/-- Witness for claim C10 at the same concrete run: at most 10 sources, and
the citation index 1 lies within `min 10 (len web_docs)`. -/
theorem C10_witness :
    (hybridAnswer digest0 ratSqrt
      (fun nid _ => if nid = "q" then .ok [⟨some "q", some "p", some "x",
          none⟩] else .ok [])
      errVS "q" 5 (some [⟨some "u", some "T", some "S", some "X", some "E"⟩])
      "neutral" 300 "general" 90).sources.length ≤ 10 ∧
    (1 ≤ 1 ∧ 1 ≤ min 10 ((some [(⟨some "u", some "T", some "S", some "X",
        some "E"⟩ : Doc)] : Option (List Doc)).getD []).length) :=
  ⟨(C10_first_ten_docs digest0 ratSqrt
      (fun nid _ => if nid = "q" then .ok [⟨some "q", some "p", some "x",
          none⟩] else .ok [])
      errVS "q" 5 (some [⟨some "u", some "T", some "S", some "X", some "E"⟩])
      "neutral" 300 "general" 90).2.1,
   (C10_first_ten_docs digest0 ratSqrt
      (fun nid _ => if nid = "q" then .ok [⟨some "q", some "p", some "x",
          none⟩] else .ok [])
      errVS "q" 5 (some [⟨some "u", some "T", some "S", some "X", some "E"⟩])
      "neutral" 300 "general" 90).2.2.2
    ⟨some "q", some "p", some "x", none, 0, [1]⟩ (by decide) 1 (by decide)⟩

/-- Witness for claim C3 at the same concrete run: the attributed fact cites
exactly the first index attaining the maximal cosine similarity, 1-based. -/
theorem C3_witness :
    (⟨some "q", some "p", some "x", none, 0, [1]⟩ : Fact).citations =
      [firstIdxOf
        (maxD ((docVecs digest0 ratSqrt (docsOf (some [⟨some "u", some "T",
            some "S", some "X", some "E"⟩]))).map (fun dv =>
          cosQ ratSqrt (embed digest0 ratSqrt 256 (claimStr
            ⟨some "q", some "p", some "x", none, 0, [1]⟩)) dv)))
        ((docVecs digest0 ratSqrt (docsOf (some [⟨some "u", some "T",
            some "S", some "X", some "E"⟩]))).map (fun dv =>
          cosQ ratSqrt (embed digest0 ratSqrt 256 (claimStr
            ⟨some "q", some "p", some "x", none, 0, [1]⟩)) dv)) + 1] :=
  ((C3_citation_attribution digest0 ratSqrt
      (fun nid _ => if nid = "q" then .ok [⟨some "q", some "p", some "x",
          none⟩] else .ok [])
      errVS "q" 5 (some [⟨some "u", some "T", some "S", some "X", some "E"⟩])
      "neutral" 300 "general" 90 ratSqrt_hsq).1 (by decide)
    ⟨some "q", some "p", some "x", none, 0, [1]⟩ (by decide)).1

end ConcreteEvaluation

end GrokAlt
